import Mathlib

/-!
Verification development for a small PNG library (modules `png/__init__.py`,
`png/chunks.py`, `png/filter.py`).

Bytes are modelled as natural numbers (with `< 256` as a hypothesis where it
matters), byte strings as `List Nat`, and Python exceptions as an explicit
error type returned through `Except`.  Each definition below is a direct
translation of the corresponding Python function, including its quirks:
slices clamp at the ends of the buffer, `bytes([v])` fails for `v ≥ 256`,
indexing an `int` or assigning into a `str` raises `TypeError`, and so on.
-/

namespace Png

/-- The Python exceptions raised by the library, labelled by the check or
operation that raises them.  `signatureError`, `chunkTooSmall`,
`framingError`, `nameError`, `checksumError` and `structuralError` are all
`ValueError` in the source, distinguished here by their raise site;
`typeError` is Python's `TypeError` (indexing an `int`, assigning into a
`str`); `valueError` is the `ValueError` raised by `bytes([v])` when
`v ≥ 256`; `indexError` is an out-of-range index; `structError` is
`struct.error` from `struct.pack`/`struct.unpack`; `unicodeError` is an
ASCII codec failure on a byte/char `≥ 128`. -/
inductive PngError where
  | signatureError
  | chunkTooSmall
  | framingError
  | nameError
  | checksumError
  | structuralError
  | typeError
  | valueError
  | indexError
  | structError
  | unicodeError
  deriving DecidableEq, Repr

/-! ## `png/filter.py` -/

/-- `scanline_bytes = math.ceil(width*bpp/8)` in `filter.decode`. -/
def scanlineBytes (width bpp : Nat) : Nat := (width * bpp + 7) / 8

/-- `bytes_per_pixel = math.ceil(bpp/8)` in `filter.decode`. -/
def bytesPerPixel (bpp : Nat) : Nat := (bpp + 7) / 8

/-- The `for start in range(len(line_data))` loop of the Sub (type 1) branch.
For `start < bytes_per_pixel` the raw byte is written; otherwise the source
evaluates `line_start[start]`, which indexes the integer `line_start` and
raises `TypeError`. -/
def subRowGo (lineData : List Nat) (bpp start : Nat) : Except PngError (List Nat) :=
  if start < lineData.length then
    if start < bpp then
      match subRowGo lineData bpp (start + 1) with
      | .error e => .error e
      | .ok rest => .ok (lineData.getD start 0 :: rest)
    else .error .typeError
  else .ok []
termination_by lineData.length - start

/-- The loop of the Up (type 2) branch: `bytes([line_data[start] +
prev_line_data[start]])`.  Indexing `prev_line_data` out of range raises
`IndexError`; a sum `≥ 256` makes `bytes` raise `ValueError` (the source has
no `& 0xff` here). -/
def upRowGo (lineData prev : List Nat) (start : Nat) : Except PngError (List Nat) :=
  if start < lineData.length then
    if start < prev.length then
      if lineData.getD start 0 + prev.getD start 0 < 256 then
        match upRowGo lineData prev (start + 1) with
        | .error e => .error e
        | .ok rest => .ok ((lineData.getD start 0 + prev.getD start 0) :: rest)
      else .error .valueError
    else .error .indexError
  else .ok []
termination_by lineData.length - start

/-- The loop of the Average (type 3) branch.  For `start < bytes_per_pixel`
the source computes `line_data[start] + prev_line_data[start]` (no halving,
no `& 0xff`); otherwise it evaluates `line_start[start]` and raises
`TypeError` just like the Sub branch. -/
def avgRowGo (lineData prev : List Nat) (bpp start : Nat) : Except PngError (List Nat) :=
  if start < lineData.length then
    if start < bpp then
      if start < prev.length then
        if lineData.getD start 0 + prev.getD start 0 < 256 then
          match avgRowGo lineData prev bpp (start + 1) with
          | .error e => .error e
          | .ok rest => .ok ((lineData.getD start 0 + prev.getD start 0) :: rest)
        else .error .valueError
      else .error .indexError
    else .error .typeError
  else .ok []
termination_by lineData.length - start

/-- The local `paeth(a, b, c)` helper of the Paeth (type 4) branch. -/
def paethPredictor (a b c : Nat) : Nat :=
  let p : Int := (a : Int) + (b : Int) - (c : Int)
  let pa := (p - (a : Int)).natAbs
  let pb := (p - (b : Int)).natAbs
  let pc := (p - (c : Int)).natAbs
  if pa ≤ pb ∧ pa ≤ pc then a
  else if pb ≤ pc then b
  else c

/-- The loop of the Paeth (type 4) branch.  This branch does mask with
`& 0xff` (written `% 256` on these non-negative values); it still indexes
`prev_line_data[start]`, which can raise `IndexError`.  Note that for
`start ≥ bytes_per_pixel` the left neighbour passed to `paeth` is the raw
filtered byte `line_data[start - bytes_per_pixel]`, not the reconstructed
output. -/
def paethRowGo (lineData prev : List Nat) (bpp start : Nat) : Except PngError (List Nat) :=
  if start < lineData.length then
    if start < prev.length then
      let v :=
        if start < bpp then
          (lineData.getD start 0 + paethPredictor 0 (prev.getD start 0) 0) % 256
        else
          (lineData.getD start 0 +
            paethPredictor (lineData.getD (start - bpp) 0) (prev.getD start 0)
              (prev.getD (start - bpp) 0)) % 256
      match paethRowGo lineData prev bpp (start + 1) with
      | .error e => .error e
      | .ok rest => .ok (v :: rest)
    else .error .indexError
  else .ok []
termination_by lineData.length - start

/-- The `if filter_type == ... elif ...` chain of `filter.decode` applied to
one row.  A filter type outside `{0,1,2,3,4}` matches no branch: the row
buffer stays empty and no error is raised. -/
def decodeRow (filterType : Nat) (lineData prev : List Nat) (bpp : Nat) :
    Except PngError (List Nat) :=
  if filterType = 0 then .ok lineData
  else if filterType = 1 then subRowGo lineData bpp 0
  else if filterType = 2 then upRowGo lineData prev 0
  else if filterType = 3 then avgRowGo lineData prev bpp 0
  else if filterType = 4 then paethRowGo lineData prev bpp 0
  else .ok []

/-- The `while line_start < len(data)` loop of `filter.decode`, expressed on
the suffix `data[line_start:]`.  Each iteration reads the filter-type byte,
slices up to `scanline_bytes` following bytes (clamped at the end of the
buffer, like a Python slice), reconstructs the row, and advances by
`scanline_bytes + 1`. -/
def decodeGo (width bpp : Nat) (rest prev : List Nat) : Except PngError (List Nat) :=
  match rest with
  | [] => .ok []
  | filterType :: tail =>
    let sb := scanlineBytes width bpp
    let lineData := tail.take sb
    match decodeRow filterType lineData prev (bytesPerPixel bpp) with
    | .error e => .error e
    | .ok outLine =>
      match decodeGo width bpp (tail.drop sb) outLine with
      | .error e => .error e
      | .ok out => .ok (outLine ++ out)
termination_by rest.length
decreasing_by
  simp only [List.length_drop, List.length_cons]
  omega

/-- `filter.decode(data, width, bpp)`.  The previous-line reference starts
as `b"\x00" * scanline_bytes`. -/
def decode (data : List Nat) (width bpp : Nat) : Except PngError (List Nat) :=
  decodeGo width bpp data (List.replicate (scanlineBytes width bpp) 0)

/-! ## CRC-32

`chunks.py` calls `zlib.crc32`, the standard CRC-32 with reflected
polynomial `0xEDB88320` and initial/final value `0xFFFFFFFF`; it is modelled
here by the textbook bitwise algorithm (verified against zlib's published
test values, e.g. `crc32(b"123456789") = 0xCBF43926`). -/

/-- One shift-and-conditionally-xor step of CRC-32. -/
def crcStep1 (c : Nat) : Nat := (c / 2) ^^^ (if c % 2 = 1 then 0xEDB88320 else 0)

/-- `n` iterations of `crcStep1` (8 per input byte). -/
def crcStepN : Nat → Nat → Nat
  | 0, c => c
  | n + 1, c => crcStepN n (crcStep1 c)

/-- Folds the message bytes into the CRC state. -/
def crc32Aux : List Nat → Nat → Nat
  | [], c => c
  | b :: bs, c => crc32Aux bs (crcStepN 8 (c ^^^ b))

/-- `zlib.crc32(bs)`. -/
def crc32 (bs : List Nat) : Nat := crc32Aux bs 0xFFFFFFFF ^^^ 0xFFFFFFFF

/-! ## `png/chunks.py` -/

/-- Big-endian interpretation of a byte string, as done by
`struct.unpack("!I", ...)` on a 4-byte buffer. -/
def beU32 (l : List Nat) : Nat := l.foldl (fun acc b => acc * 256 + b) 0

/-- `struct.pack("!I", n)` for `n < 2^32`: the 4 big-endian bytes of `n`. -/
def beU32Bytes (n : Nat) : List Nat :=
  [n / 16777216 % 256, n / 65536 % 256, n / 256 % 256, n % 256]

/-- Which subclass of `Chunk` an instance belongs to; `ihdr` carries the
fields unpacked by `IHDR.load` / repacked by `IHDR.dump`. -/
inductive ChunkVariant where
  | generic
  | ihdr (width height bitDepth colorType compressionMethod filterMethod
      interlaceMethod : Nat)
  | idat
  | iend
  deriving DecidableEq, Repr

/-- A `chunks.Chunk` instance: `length`, `name` (kept as its ASCII byte
values; `Chunk.load` stores `raw_name.decode("ascii")`), `data`, `crc`. -/
structure Chunk where
  length : Nat
  name : List Nat
  data : List Nat
  crc : Nat
  variant : ChunkVariant
  deriving DecidableEq, Repr

/-- `c in string.ascii_letters`. -/
def isAsciiLetter (c : Nat) : Bool := (65 ≤ c && c ≤ 90) || (97 ≤ c && c ≤ 122)

/-- `Chunk.verify_name`.  In the source the `return True` sits inside the
`for` loop body, immediately after the `if`, so the loop exits during its
first iteration: only the first character of the name is ever validated
(an empty name passes because the loop body never runs). -/
def verifyNameOk (name : List Nat) : Bool :=
  match name with
  | [] => true
  | c :: _ => isAsciiLetter c

/-- `Chunk.load(data)` (the `cls()` instance is created with the default
`ignore_errors=False`, so every failed check raises).  Steps, in source
order: reject buffers shorter than 12 bytes; unpack the declared length and
the 4 raw name bytes; slice the payload `data[8:-4]`; `verify_length`;
decode the name as ASCII; `verify_name`; unpack the stored CRC at
`data[8+length : 8+length+4]`; `verify_crc` against `crc32(name‖payload)`. -/
def chunkLoadBase (buf : List Nat) : Except PngError Chunk :=
  if buf.length < 12 then .error .chunkTooSmall
  else
    let len := beU32 (buf.take 4)
    let rawName := (buf.drop 4).take 4
    let dat := (buf.drop 8).take (buf.length - 12)
    if dat.length ≠ len then .error .framingError
    else if ¬ rawName.all (fun b => b < 128) then .error .unicodeError
    else if ¬ verifyNameOk rawName then .error .nameError
    else if ((buf.drop (8 + len)).take 4).length ≠ 4 then .error .structError
    else if beU32 ((buf.drop (8 + len)).take 4) ≠ crc32 (rawName ++ dat) then
      .error .checksumError
    else .ok { length := len, name := rawName, data := dat,
               crc := beU32 ((buf.drop (8 + len)).take 4), variant := .generic }

/-- `IHDR.load`: the base `Chunk.load`, then
`struct.unpack("!IIBBBBB", inst.data)`, which demands exactly 13 bytes. -/
def chunkLoadIHDR (buf : List Nat) : Except PngError Chunk :=
  match chunkLoadBase buf with
  | .error e => .error e
  | .ok ch =>
    if ch.data.length ≠ 13 then .error .structError
    else
      let v := ChunkVariant.ihdr (beU32 (ch.data.take 4))
        (beU32 ((ch.data.drop 4).take 4)) (ch.data.getD 8 0) (ch.data.getD 9 0)
        (ch.data.getD 10 0) (ch.data.getD 11 0) (ch.data.getD 12 0)
      .ok { ch with variant := v }

/-- `chunk_map.get(chunk_name, chunks.Chunk).load(...)`: the tag-to-class
dispatch of `PNG.load` (`IDAT` and `IEND` do not override `load`, they only
mark the instance's class). -/
def chunkLoadDispatch (name buf : List Nat) : Except PngError Chunk :=
  if name = [73, 72, 68, 82] then chunkLoadIHDR buf
  else if name = [73, 68, 65, 84] then
    match chunkLoadBase buf with
    | .error e => .error e
    | .ok ch => .ok { ch with variant := .idat }
  else if name = [73, 69, 78, 68] then
    match chunkLoadBase buf with
    | .error e => .error e
    | .ok ch => .ok { ch with variant := .iend }
  else chunkLoadBase buf

/-- A `PNG` container instance (only the chunk list matters to `dump`). -/
structure PNGFile where
  chunks : List Chunk
  deriving DecidableEq, Repr

/-- `PNG_HEADER = b"\x89PNG\r\n\x1a\n"`. -/
def pngHeader : List Nat := [137, 80, 78, 71, 13, 10, 26, 10]

/-- The `while chunk_start < inst.length` loop of `PNG.load`, expressed on
the suffix `data[chunk_start:]`.  `struct.unpack("!I4s", ...)` needs exactly
8 bytes; the chunk is loaded from `data[chunk_start:chunk_start+length+12]`
(clamped like a Python slice) and the cursor advances by `length + 12`. -/
def loadChunks (rest : List Nat) : Except PngError (List Chunk) :=
  if rest.isEmpty then .ok []
  else if rest.length < 8 then .error .structError
  else
    let len := beU32 (rest.take 4)
    let name := (rest.drop 4).take 4
    match chunkLoadDispatch name (rest.take (len + 12)) with
    | .error e => .error e
    | .ok ch =>
      match loadChunks (rest.drop (len + 12)) with
      | .error e => .error e
      | .ok cs => .ok (ch :: cs)
termination_by rest.length
decreasing_by
  simp only [List.length_drop]
  rename_i h _
  simp only [List.isEmpty_iff] at h
  have : 0 < rest.length := List.length_pos.mpr h
  omega

/-- `PNG.load(data, ignore_errors)`.  The signature check raises only when
`ignore_errors` is false; chunk loading never sees the flag (each chunk is
built by `cls()` with the default `ignore_errors=False`). -/
def loadPNG (data : List Nat) (ignoreErrors : Bool) : Except PngError PNGFile :=
  if data.take 8 ≠ pngHeader ∧ ignoreErrors = false then .error .signatureError
  else
    match loadChunks (data.drop 8) with
    | .error e => .error e
    | .ok cs => .ok { chunks := cs }

/-- `Chunk.dump()` with the default `auto_crc=True, auto_length=True`:
`update_length` overwrites `length` with `len(data)`; `update_crc` encodes
the name as ASCII (failing on a code point `≥ 128`) and recomputes the CRC;
`verify_name`; then `pack("!I", length) + raw_name + data + pack("!I", crc)`
(`struct.pack("!I", v)` fails for `v ≥ 2^32`). -/
def chunkDumpBase (ch : Chunk) : Except PngError (List Nat) :=
  let len := ch.data.length
  if ¬ ch.name.all (fun b => b < 128) then .error .unicodeError
  else
    let crc := crc32 (ch.name ++ ch.data)
    if ¬ verifyNameOk ch.name then .error .nameError
    else if 4294967296 ≤ len then .error .structError
    else if 4294967296 ≤ crc then .error .structError
    else .ok (beU32Bytes len ++ ch.name ++ ch.data ++ beU32Bytes crc)

/-- Subclass `dump` overrides: `IHDR.dump` repacks its seven fields into
`data` first (`struct.pack("!IIBBBBB", ...)` fails on out-of-range values);
`IEND.dump` raises if `data` is non-empty or `length` is non-zero;
`IDAT` inherits the base `dump`. -/
def chunkDump (ch : Chunk) : Except PngError (List Nat) :=
  match ch.variant with
  | .generic => chunkDumpBase ch
  | .idat => chunkDumpBase ch
  | .ihdr w h bd ct cm fm il =>
    if 4294967296 ≤ w ∨ 4294967296 ≤ h ∨ 256 ≤ bd ∨ 256 ≤ ct ∨ 256 ≤ cm
        ∨ 256 ≤ fm ∨ 256 ≤ il then .error .structError
    else chunkDumpBase { ch with data := beU32Bytes w ++ beU32Bytes h ++ [bd, ct, cm, fm, il] }
  | .iend =>
    if ch.data.length ≠ 0 then .error .structuralError
    else if ch.length ≠ 0 then .error .structuralError
    else chunkDumpBase ch

/-- The chunk loop of `PNG.dump`: every chunk's `dump()`, concatenated. -/
def dumpChunks : List Chunk → Except PngError (List Nat)
  | [] => .ok []
  | ch :: cs =>
    match chunkDump ch with
    | .error e => .error e
    | .ok d =>
      match dumpChunks cs with
      | .error e => .error e
      | .ok ds => .ok (d ++ ds)

/-- `PNG.dump()`: the signature followed by every chunk's `dump()`. -/
def dumpPNG (png : PNGFile) : Except PngError (List Nat) :=
  match dumpChunks png.chunks with
  | .error e => .error e
  | .ok ds => .ok (pngHeader ++ ds)

/-- `str.islower()` for a single ASCII code point. -/
def isLowerLetter (c : Nat) : Bool := 97 ≤ c && c ≤ 122

/-- `str.isupper()` for a single ASCII code point. -/
def isUpperLetter (c : Nat) : Bool := 65 ≤ c && c ≤ 90

/-- `Chunk.ancillary(set)`.  When `set` is `True` or `False` the source
executes `self.name[0] = ...`; `name` is a `str` (or `bytes`), which does
not support item assignment, so this raises `TypeError` before returning.
With `set=None` it returns `self.name[0].islower()` (an `IndexError` if the
name is empty). -/
def chunkAncillary (ch : Chunk) (set : Option Bool) : Except PngError Bool :=
  match set with
  | some _ => .error .typeError
  | none =>
    if 0 < ch.name.length then .ok (isLowerLetter (ch.name.getD 0 0))
    else .error .indexError

/-- `Chunk.private(set)`, same shape as `ancillary` on `name[1]`. -/
def chunkPrivate (ch : Chunk) (set : Option Bool) : Except PngError Bool :=
  match set with
  | some _ => .error .typeError
  | none =>
    if 1 < ch.name.length then .ok (isLowerLetter (ch.name.getD 1 0))
    else .error .indexError

/-- `Chunk.reserved(set)`, same shape on `name[2]` (upper-case = set). -/
def chunkReserved (ch : Chunk) (set : Option Bool) : Except PngError Bool :=
  match set with
  | some _ => .error .typeError
  | none =>
    if 2 < ch.name.length then .ok (isUpperLetter (ch.name.getD 2 0))
    else .error .indexError

/-- `Chunk.safe_to_copy(set)`, same shape on `name[3]`. -/
def chunkSafeToCopy (ch : Chunk) (set : Option Bool) : Except PngError Bool :=
  match set with
  | some _ => .error .typeError
  | none =>
    if 3 < ch.name.length then .ok (isLowerLetter (ch.name.getD 3 0))
    else .error .indexError

/-! ## Helper lemmas: CRC-32 algebra

CRC-32 is affine over xor; in particular flipping one message bit always
changes the checksum.  These lemmas develop exactly that. -/

theorem xor_div_two (a b : Nat) : (a ^^^ b) / 2 = a / 2 ^^^ b / 2 := by
  apply Nat.eq_of_testBit_eq
  intro i
  rw [Nat.testBit_xor, ← Nat.testBit_succ, ← Nat.testBit_succ, ← Nat.testBit_succ,
    Nat.testBit_xor]

theorem xor_mod_two (a b : Nat) : (a ^^^ b) % 2 = (a % 2 + b % 2) % 2 := by
  have h := Nat.testBit_xor a b 0
  simp only [Nat.testBit_zero] at h
  rcases Nat.mod_two_eq_zero_or_one a with ha | ha <;>
    rcases Nat.mod_two_eq_zero_or_one b with hb | hb <;>
    rcases Nat.mod_two_eq_zero_or_one (a ^^^ b) with hc | hc <;>
    simp [ha, hb, hc] at h ⊢

theorem xor_left_comm (a b c : Nat) : a ^^^ (b ^^^ c) = b ^^^ (a ^^^ c) := by
  rw [← Nat.xor_assoc, Nat.xor_comm a b, Nat.xor_assoc]

theorem crcStep1_xor (a b : Nat) : crcStep1 (a ^^^ b) = crcStep1 a ^^^ crcStep1 b := by
  unfold crcStep1
  rw [xor_div_two]
  rcases Nat.mod_two_eq_zero_or_one a with ha | ha <;>
    rcases Nat.mod_two_eq_zero_or_one b with hb | hb <;>
    [skip; skip; skip; skip] <;>
    have hab := xor_mod_two a b <;> rw [ha, hb] at hab <;> norm_num at hab <;>
    simp [ha, hb, hab, Nat.xor_assoc, Nat.xor_comm, xor_left_comm]

theorem crcStepN_xor (n a b : Nat) : crcStepN n (a ^^^ b) = crcStepN n a ^^^ crcStepN n b := by
  induction n generalizing a b with
  | zero => rfl
  | succ m ih => simp [crcStepN, crcStep1_xor, ih]

theorem crcStepN_add (m n c : Nat) : crcStepN (m + n) c = crcStepN m (crcStepN n c) := by
  induction n generalizing c with
  | zero => rfl
  | succ k ih => rw [show m + (k + 1) = (m + k) + 1 by omega]; simp [crcStepN, ih]

theorem crc32Aux_append (xs ys : List Nat) (c : Nat) :
    crc32Aux (xs ++ ys) c = crc32Aux ys (crc32Aux xs c) := by
  induction xs generalizing c with
  | nil => rfl
  | cons x xs ih => simp [crc32Aux, ih]

theorem crc32Aux_xor (ys : List Nat) (c d : Nat) :
    crc32Aux ys (c ^^^ d) = crc32Aux ys c ^^^ crcStepN (8 * ys.length) d := by
  induction ys generalizing c d with
  | nil => simp [crc32Aux, crcStepN]
  | cons y ys ih =>
    simp only [crc32Aux, List.length_cons]
    rw [show (c ^^^ d) ^^^ y = (c ^^^ y) ^^^ d by
      rw [Nat.xor_assoc, Nat.xor_assoc, Nat.xor_comm d y]]
    rw [crcStepN_xor, ih]
    rw [show 8 * (ys.length + 1) = 8 * ys.length + 8 by omega, crcStepN_add]

theorem crcStep1_lt {d : Nat} (h : d < 4294967296) : crcStep1 d < 4294967296 := by
  unfold crcStep1
  rcases Nat.mod_two_eq_zero_or_one d with hd | hd <;> simp [hd]
  · omega
  · have h1 : d / 2 < 2 ^ 32 := by omega
    have h2 : (3988292384 : Nat) < 2 ^ 32 := by norm_num
    have := Nat.xor_lt_two_pow h1 h2
    omega

theorem crcStep1_pos {d : Nat} (h0 : 0 < d) (h : d < 4294967296) : 0 < crcStep1 d := by
  unfold crcStep1
  rcases Nat.mod_two_eq_zero_or_one d with hd | hd <;> simp [hd]
  · omega
  · by_contra hz
    push_neg at hz
    have hz0 : d / 2 ^^^ 3988292384 = 0 := by omega
    have : d / 2 = 3988292384 := Nat.xor_eq_zero.mp hz0
    omega

theorem crcStepN_pos {n d : Nat} (h0 : 0 < d) (h : d < 4294967296) :
    0 < crcStepN n d ∧ crcStepN n d < 4294967296 := by
  induction n generalizing d with
  | zero => exact ⟨h0, h⟩
  | succ m ih => exact ih (crcStep1_pos h0 h) (crcStep1_lt h)

theorem crc32_flip (pre suf : List Nat) (b e : Nat) (h0 : 0 < e) (h32 : e < 4294967296) :
    crc32 (pre ++ (b ^^^ e) :: suf) ≠ crc32 (pre ++ b :: suf) := by
  unfold crc32
  rw [crc32Aux_append, crc32Aux_append]
  simp only [crc32Aux]
  rw [show crc32Aux pre 4294967295 ^^^ (b ^^^ e) = (crc32Aux pre 4294967295 ^^^ b) ^^^ e by
    rw [Nat.xor_assoc]]
  rw [crcStepN_xor, crc32Aux_xor]
  intro hEq
  have hDpos := @crcStepN_pos (8 * suf.length) _ (@crcStepN_pos 8 _ h0 h32).1
    (@crcStepN_pos 8 _ h0 h32).2
  set D := crcStepN (8 * suf.length) (crcStepN 8 e) with hD2
  have h1 : D ^^^ 4294967295 = 4294967295 := by simpa [Nat.xor_assoc] using hEq
  have h2 : D = 0 := by
    have h3 := congrArg (fun x => x ^^^ 4294967295) h1
    simpa [Nat.xor_assoc, Nat.xor_self, Nat.xor_zero] using h3
  omega

theorem crcStepN_lt {n d : Nat} (h : d < 4294967296) : crcStepN n d < 4294967296 := by
  induction n generalizing d with
  | zero => exact h
  | succ m ih => exact ih (crcStep1_lt h)

theorem crc32Aux_lt {bs : List Nat} {c : Nat} (hb : ∀ x ∈ bs, x < 256)
    (hc : c < 4294967296) : crc32Aux bs c < 4294967296 := by
  induction bs generalizing c with
  | nil => exact hc
  | cons b bs ih =>
    simp only [crc32Aux]
    refine ih (fun x hx => hb x (List.mem_cons_of_mem _ hx)) (crcStepN_lt ?_)
    have hb0 : b < 2 ^ 32 := by have := hb b (List.mem_cons_self _ _); omega
    have := @Nat.xor_lt_two_pow c b 32 (by omega : c < 2 ^ 32) hb0
    omega

theorem crc32_lt {bs : List Nat} (hb : ∀ x ∈ bs, x < 256) : crc32 bs < 4294967296 := by
  unfold crc32
  have h1 : crc32Aux bs 4294967295 < 4294967296 := crc32Aux_lt hb (by norm_num)
  have := @Nat.xor_lt_two_pow (crc32Aux bs 4294967295) 4294967295 32
    (by omega : crc32Aux bs 4294967295 < 2 ^ 32)
    (by norm_num : (4294967295 : Nat) < 2 ^ 32)
  omega


/-! ## Helper lemmas: serialization round trips -/

theorem list_len4 (l : List Nat) (h : l.length = 4) : ∃ a b c d, l = [a, b, c, d] := by
  rcases l with _ | ⟨a, _ | ⟨b, _ | ⟨c, _ | ⟨d, _ | ⟨e, t⟩⟩⟩⟩⟩ <;> simp only [List.length] at h <;>
    first
    | omega
    | exact ⟨a, b, c, d, rfl⟩

theorem beU32_lt {l : List Nat} (h4 : l.length = 4) (hb : ∀ x ∈ l, x < 256) :
    beU32 l < 4294967296 := by
  obtain ⟨a, b, c, d, rfl⟩ := list_len4 l h4
  have ha := hb a (by simp)
  have hbb := hb b (by simp)
  have hc := hb c (by simp)
  have hd := hb d (by simp)
  simp only [beU32, List.foldl]
  omega

theorem beU32Bytes_beU32 {l : List Nat} (h4 : l.length = 4) (hb : ∀ x ∈ l, x < 256) :
    beU32Bytes (beU32 l) = l := by
  obtain ⟨a, b, c, d, rfl⟩ := list_len4 l h4
  have ha := hb a (by simp)
  have hbb := hb b (by simp)
  have hc := hb c (by simp)
  have hd := hb d (by simp)
  simp only [beU32, beU32Bytes, List.foldl, List.cons.injEq, and_true]
  omega

theorem list_len13 (l : List Nat) (h : l.length = 13) :
    ∃ a0 a1 a2 a3 a4 a5 a6 a7 a8 a9 a10 a11 a12,
      l = [a0, a1, a2, a3, a4, a5, a6, a7, a8, a9, a10, a11, a12] := by
  rcases l with _|⟨a0,_|⟨a1,_|⟨a2,_|⟨a3,_|⟨a4,_|⟨a5,_|⟨a6,_|⟨a7,_|⟨a8,_|⟨a9,_|⟨a10,_|⟨a11,_|⟨a12,_|⟨x,t⟩⟩⟩⟩⟩⟩⟩⟩⟩⟩⟩⟩⟩⟩ <;>
    simp only [List.length_cons, List.length_nil] at h <;>
    first
    | exact ⟨a0, a1, a2, a3, a4, a5, a6, a7, a8, a9, a10, a11, a12, rfl⟩
    | omega

theorem ihdr_pack13 {dat : List Nat} (h13 : dat.length = 13) (hb : ∀ x ∈ dat, x < 256) :
    beU32Bytes (beU32 (dat.take 4)) ++ beU32Bytes (beU32 ((dat.drop 4).take 4)) ++
      [dat.getD 8 0, dat.getD 9 0, dat.getD 10 0, dat.getD 11 0, dat.getD 12 0] = dat := by
  obtain ⟨a0, a1, a2, a3, a4, a5, a6, a7, a8, a9, a10, a11, a12, rfl⟩ := list_len13 dat h13
  have hb0 := hb a0 (by simp)
  have hb1 := hb a1 (by simp)
  have hb2 := hb a2 (by simp)
  have hb3 := hb a3 (by simp)
  have hb4 := hb a4 (by simp)
  have hb5 := hb a5 (by simp)
  have hb6 := hb a6 (by simp)
  have hb7 := hb a7 (by simp)
  have e8 : ([a0,a1,a2,a3,a4,a5,a6,a7,a8,a9,a10,a11,a12] : List Nat).getD 8 0 = a8 := rfl
  have e9 : ([a0,a1,a2,a3,a4,a5,a6,a7,a8,a9,a10,a11,a12] : List Nat).getD 9 0 = a9 := rfl
  have e10 : ([a0,a1,a2,a3,a4,a5,a6,a7,a8,a9,a10,a11,a12] : List Nat).getD 10 0 = a10 := rfl
  have e11 : ([a0,a1,a2,a3,a4,a5,a6,a7,a8,a9,a10,a11,a12] : List Nat).getD 11 0 = a11 := rfl
  have e12 : ([a0,a1,a2,a3,a4,a5,a6,a7,a8,a9,a10,a11,a12] : List Nat).getD 12 0 = a12 := rfl
  rw [e8, e9, e10, e11, e12]
  simp only [List.take, List.drop, beU32, beU32Bytes, List.foldl, List.append_assoc,
    List.cons_append, List.nil_append, List.cons.injEq, and_true]
  omega

theorem chunkLoadBase_dump (buf : List Nat) (ch : Chunk)
    (hb : ∀ x ∈ buf, x < 256) (h : chunkLoadBase buf = .ok ch) :
    chunkDumpBase ch = .ok buf ∧ buf.length = beU32 (buf.take 4) + 12 ∧
    ch.length = beU32 (buf.take 4) ∧ ch.length = ch.data.length ∧
    ch.variant = ChunkVariant.generic ∧ (∀ x ∈ ch.data, x < 256) := by
  simp only [chunkLoadBase] at h
  by_cases h12 : buf.length < 12
  · rw [if_pos h12] at h; cases h
  rw [if_neg h12] at h
  by_cases hfr : ((buf.drop 8).take (buf.length - 12)).length ≠ beU32 (buf.take 4)
  · rw [if_pos hfr] at h; cases h
  rw [if_neg hfr] at h
  push_neg at hfr
  by_cases huni : ¬ (((buf.drop 4).take 4).all fun b => b < 128)
  · rw [if_pos huni] at h; cases h
  rw [if_neg huni] at h
  by_cases hnm : ¬ verifyNameOk ((buf.drop 4).take 4)
  · rw [if_pos hnm] at h; cases h
  rw [if_neg hnm] at h
  by_cases hc4 : ((buf.drop (8 + beU32 (buf.take 4))).take 4).length ≠ 4
  · rw [if_pos hc4] at h; cases h
  rw [if_neg hc4] at h
  by_cases hcrc : beU32 ((buf.drop (8 + beU32 (buf.take 4))).take 4)
      ≠ crc32 ((buf.drop 4).take 4 ++ (buf.drop 8).take (buf.length - 12))
  · rw [if_pos hcrc] at h; cases h
  rw [if_neg hcrc] at h
  push_neg at hc4 hcrc
  injection h with h
  subst h
  -- basic length facts
  have hdatlen : ((buf.drop 8).take (buf.length - 12)).length = buf.length - 12 := by
    simp only [List.length_take, List.length_drop]
    omega
  have hL : beU32 (buf.take 4) = buf.length - 12 := by rw [← hfr, hdatlen]
  have hblen : buf.length = beU32 (buf.take 4) + 12 := by omega
  -- byte bounds on the slices
  have hbname : ∀ x ∈ (buf.drop 4).take 4, x < 256 := fun x hx =>
    hb x (List.mem_of_mem_drop (List.mem_of_mem_take hx))
  have hbdat : ∀ x ∈ (buf.drop 8).take (buf.length - 12), x < 256 := fun x hx =>
    hb x (List.mem_of_mem_drop (List.mem_of_mem_take hx))
  have hbcrc : ∀ x ∈ (buf.drop (8 + beU32 (buf.take 4))).take 4, x < 256 := fun x hx =>
    hb x (List.mem_of_mem_drop (List.mem_of_mem_take hx))
  have hbtake4 : ∀ x ∈ buf.take 4, x < 256 := fun x hx => hb x (List.mem_of_mem_take hx)
  have htake4len : (buf.take 4).length = 4 := by simp [List.length_take]; omega
  refine ⟨?_, hblen, hL.symm ▸ rfl, by rw [← hfr], rfl, hbdat⟩
  · -- the dump reproduces the buffer
    simp only [chunkDumpBase]
    rw [if_neg huni, if_neg hnm]
    rw [if_neg (by
      rw [hdatlen]
      have := beU32_lt htake4len hbtake4
      omega)]
    rw [if_neg (by
      have := @crc32_lt ((buf.drop 4).take 4 ++ (buf.drop 8).take (buf.length - 12)) (by
        intro x hx
        rcases List.mem_append.mp hx with hx | hx
        · exact hbname x hx
        · exact hbdat x hx)
      omega)]
    -- identify each emitted piece with the corresponding slice of `buf`
    have e1 : beU32Bytes ((buf.drop 8).take (buf.length - 12)).length = buf.take 4 := by
      rw [hdatlen, ← hL, beU32Bytes_beU32 htake4len hbtake4]
    have e4 : beU32Bytes (crc32 ((buf.drop 4).take 4 ++ (buf.drop 8).take (buf.length - 12)))
        = (buf.drop (8 + beU32 (buf.take 4))).take 4 := by
      rw [← hcrc, beU32Bytes_beU32 hc4 hbcrc]
    rw [e1, e4]
    -- reassemble buf from its four slices
    have a3 : (buf.drop (8 + beU32 (buf.take 4))).take 4 = (buf.drop 8).drop (buf.length - 12) := by
      rw [List.drop_drop, show 8 + (buf.length - 12) = 8 + beU32 (buf.take 4) by omega]
      rw [List.take_of_length_le (by simp [List.length_drop]; omega)]
    rw [a3]
    have a2 : (buf.drop 8) = (buf.drop 4).drop 4 := by rw [List.drop_drop]
    congr 1
    calc List.take 4 buf ++ (buf.drop 4).take 4 ++ (buf.drop 8).take (buf.length - 12)
          ++ (buf.drop 8).drop (buf.length - 12)
        = List.take 4 buf ++ (buf.drop 4).take 4
            ++ ((buf.drop 8).take (buf.length - 12) ++ (buf.drop 8).drop (buf.length - 12)) := by
          rw [List.append_assoc]
      _ = List.take 4 buf ++ (buf.drop 4).take 4 ++ buf.drop 8 := by rw [List.take_append_drop]
      _ = List.take 4 buf ++ ((buf.drop 4).take 4 ++ (buf.drop 4).drop 4) := by
          rw [a2, List.append_assoc]
      _ = List.take 4 buf ++ buf.drop 4 := by rw [List.take_append_drop]
      _ = buf := List.take_append_drop 4 buf

theorem chunkDumpBase_fields (len crc : Nat) (v : ChunkVariant) (name dat : List Nat)
    (len2 crc2 : Nat) (v2 : ChunkVariant) :
    chunkDumpBase ⟨len, name, dat, crc, v⟩ = chunkDumpBase ⟨len2, name, dat, crc2, v2⟩ := rfl

theorem chunkLoadDispatch_dump (name buf : List Nat) (ch : Chunk)
    (hb : ∀ x ∈ buf, x < 256) (h : chunkLoadDispatch name buf = .ok ch)
    (hiend : ch.variant = ChunkVariant.iend → ch.data = []) :
    chunkDump ch = .ok buf ∧ buf.length = beU32 (buf.take 4) + 12 := by
  simp only [chunkLoadDispatch] at h
  by_cases h1 : name = [73, 72, 68, 82]
  · -- IHDR
    rw [if_pos h1] at h
    simp only [chunkLoadIHDR] at h
    cases hbase : chunkLoadBase buf with
    | error e => simp only [hbase] at h; cases h
    | ok ch0 =>
      simp only [hbase] at h
      by_cases h13 : ch0.data.length ≠ 13
      · rw [if_pos h13] at h; cases h
      rw [if_neg h13] at h
      push_neg at h13
      obtain ⟨hdump, hblen, hchl, hchd, hvar, hbdat⟩ := chunkLoadBase_dump buf ch0 hb hbase
      injection h with h
      subst h
      refine ⟨?_, hblen⟩
      simp only [chunkDump]
      have htl : (ch0.data.take 4).length = 4 := by simp [List.length_take]; omega
      have hdl : ((ch0.data.drop 4).take 4).length = 4 := by
        simp [List.length_take, List.length_drop]; omega
      have hbt : ∀ x ∈ ch0.data.take 4, x < 256 := fun x hx => hbdat x (List.mem_of_mem_take hx)
      have hbd : ∀ x ∈ (ch0.data.drop 4).take 4, x < 256 := fun x hx =>
        hbdat x (List.mem_of_mem_drop (List.mem_of_mem_take hx))
      have hw := beU32_lt htl hbt
      have hh := beU32_lt hdl hbd
      have hg : ∀ i, i < 13 → ch0.data.getD i 0 < 256 := by
        intro i hi
        have hlt : i < ch0.data.length := by omega
        rw [List.getD_eq_getElem _ _ hlt]
        exact hbdat _ (List.getElem_mem hlt)
      have hg8 := hg 8 (by omega)
      have hg9 := hg 9 (by omega)
      have hg10 := hg 10 (by omega)
      have hg11 := hg 11 (by omega)
      have hg12 := hg 12 (by omega)
      rw [if_neg (by push_neg; exact ⟨by omega, by omega, by omega, by omega, by omega,
        by omega, by omega⟩)]
      rw [ihdr_pack13 h13 hbdat]
      exact hdump
  rw [if_neg h1] at h
  by_cases h2 : name = [73, 68, 65, 84]
  · -- IDAT
    rw [if_pos h2] at h
    cases hbase : chunkLoadBase buf with
    | error e => simp only [hbase] at h; cases h
    | ok ch0 =>
      simp only [hbase] at h
      obtain ⟨hdump, hblen, hchl, hchd, hvar, hbdat⟩ := chunkLoadBase_dump buf ch0 hb hbase
      injection h with h
      subst h
      exact ⟨hdump, hblen⟩
  rw [if_neg h2] at h
  by_cases h3 : name = [73, 69, 78, 68]
  · -- IEND
    rw [if_pos h3] at h
    cases hbase : chunkLoadBase buf with
    | error e => simp only [hbase] at h; cases h
    | ok ch0 =>
      simp only [hbase] at h
      obtain ⟨hdump, hblen, hchl, hchd, hvar, hbdat⟩ := chunkLoadBase_dump buf ch0 hb hbase
      injection h with h
      subst h
      have hdata : ch0.data = [] := hiend rfl
      refine ⟨?_, hblen⟩
      simp only [chunkDump]
      rw [if_neg (by simp [hdata])]
      rw [if_neg (by simp [hchd, hdata])]
      exact hdump
  rw [if_neg h3] at h
  -- generic fallback
  obtain ⟨hdump, hblen, hchl, hchd, hvar, hbdat⟩ := chunkLoadBase_dump buf ch hb h
  rcases ch with ⟨cl, cn, cd, cc, cv⟩
  simp only at hvar
  subst hvar
  exact ⟨hdump, hblen⟩

theorem loadChunks_dump (n : Nat) (rest : List Nat) (chunks : List Chunk)
    (hn : rest.length ≤ n) (hb : ∀ x ∈ rest, x < 256)
    (h : loadChunks rest = .ok chunks)
    (hiend : ∀ ch ∈ chunks, ch.variant = ChunkVariant.iend → ch.data = []) :
    dumpChunks chunks = .ok rest := by
  induction n generalizing rest chunks with
  | zero =>
    have hnil : rest = [] := List.eq_nil_of_length_eq_zero (by omega)
    subst hnil
    rw [loadChunks] at h
    simp only [List.isEmpty_nil, if_true] at h
    injection h with h
    subst h
    rfl
  | succ m ih =>
    rw [loadChunks] at h
    by_cases hemp : rest.isEmpty
    · rw [if_pos hemp] at h
      injection h with h
      subst h
      have hnil : rest = [] := List.isEmpty_iff.mp hemp
      subst hnil
      rfl
    rw [if_neg hemp] at h
    by_cases h8 : rest.length < 8
    · rw [if_pos h8] at h; cases h
    rw [if_neg h8] at h
    cases hd : chunkLoadDispatch ((rest.drop 4).take 4) (rest.take (beU32 (rest.take 4) + 12)) with
    | error e => simp only [hd] at h; cases h
    | ok ch =>
      simp only [hd] at h
      cases hrec : loadChunks (rest.drop (beU32 (rest.take 4) + 12)) with
      | error e => simp only [hrec] at h; cases h
      | ok cs =>
        simp only [hrec] at h
        injection h with h
        subst h
        have hbbuf : ∀ x ∈ rest.take (beU32 (rest.take 4) + 12), x < 256 := fun x hx =>
          hb x (List.mem_of_mem_take hx)
        have hie : ch.variant = ChunkVariant.iend → ch.data = [] :=
          hiend ch (List.mem_cons_self _ _)
        obtain ⟨hdump, hblen⟩ := chunkLoadDispatch_dump _ _ _ hbbuf hd hie
        have htt : (rest.take (beU32 (rest.take 4) + 12)).take 4 = rest.take 4 := by
          rw [List.take_take]
          try congr 1
          try omega
        rw [htt] at hblen
        have hbuflen : (rest.take (beU32 (rest.take 4) + 12)).length
            = beU32 (rest.take 4) + 12 := by
          simp only [List.length_take] at hblen ⊢
          omega
        have hrestlen : beU32 (rest.take 4) + 12 ≤ rest.length := by
          simp only [List.length_take] at hbuflen
          omega
        have hrest0 : 0 < rest.length := List.length_pos.mpr (by
          intro hcontra
          exact hemp (by simp [hcontra]))
        have hdrec : dumpChunks cs = .ok (rest.drop (beU32 (rest.take 4) + 12)) := by
          refine ih _ _ (by simp only [List.length_drop]; omega)
            (fun x hx => hb x (List.mem_of_mem_drop hx)) hrec
            (fun c hc => hiend c (List.mem_cons_of_mem _ hc))
        simp only [dumpChunks, hdump, hdrec]
        rw [List.take_append_drop]

/-- Claim C5: for every well-formed strict-mode-parseable byte stream (strict
`PNG.load` succeeds; bytes are 8-bit; per the container invariant of a
well-formed stream, every end-marker chunk carries an empty payload),
re-dumping the loaded container reproduces the input byte-for-byte:
`dump(load(bytes)) == bytes`. -/
theorem c5_dump_load_round_trip (data : List Nat) (png : PNGFile)
    (hb : ∀ x ∈ data, x < 256)
    (h : loadPNG data false = .ok png)
    (hiend : ∀ ch ∈ png.chunks, ch.variant = ChunkVariant.iend → ch.data = []) :
    dumpPNG png = .ok data := by
  simp only [loadPNG] at h
  by_cases hsig : data.take 8 = pngHeader
  · rw [if_neg (by simp [hsig])] at h
    cases hlc : loadChunks (data.drop 8) with
    | error e => simp only [hlc] at h; cases h
    | ok cs =>
      simp only [hlc] at h
      injection h with h
      subst h
      simp only [PNGFile.chunks] at hiend
      have hd : dumpChunks cs = .ok (data.drop 8) :=
        loadChunks_dump (data.drop 8).length _ _ le_rfl
          (fun x hx => hb x (List.mem_of_mem_drop hx)) hlc hiend
      simp only [dumpPNG, hd]
      rw [← hsig, List.take_append_drop]
  · rw [if_pos ⟨hsig, trivial⟩] at h
    cases h

theorem decodeGo_type0 (width bpp : Nat) (rows : List (List Nat)) (lastRow prev : List Nat)
    (hrows : ∀ r ∈ rows, r.length = scanlineBytes width bpp)
    (hlast : lastRow.length < scanlineBytes width bpp) :
    decodeGo width bpp ((rows.map (fun r => 0 :: r)).flatten ++ 0 :: lastRow) prev
      = .ok (rows.flatten ++ lastRow) := by
  induction rows generalizing prev with
  | nil =>
    simp only [List.map_nil, List.flatten_nil, List.nil_append]
    simp [decodeGo, decodeRow, List.take_of_length_le (Nat.le_of_lt hlast),
      List.drop_eq_nil_of_le (Nat.le_of_lt hlast)]
  | cons r rows ih =>
    simp only [List.map_cons, List.flatten_cons, List.cons_append, List.append_assoc]
    have hr : r.length = scanlineBytes width bpp := hrows r (List.mem_cons_self _ _)
    simp [decodeGo, decodeRow, List.take_left' hr, List.drop_left' hr,
      ih r (fun x hx => hrows x (List.mem_cons_of_mem _ hx)), List.append_assoc]

/-- Claim C6: flipping any single bit of a payload byte of a well-formed
chunk buffer makes strict-mode chunk decode fail with the CRC-mismatch error.
The buffer is written `pre ++ b :: suf`: `8 ≤ pre.length` puts the flipped
byte after the length and tag fields and `4 ≤ suf.length` keeps it out of
the stored-CRC field, so (given that loading the original buffer succeeded)
`b` is a payload byte, and `b ^^^ 2^j` with `j < 8` flips its bit `j`. -/
theorem c6_payload_bit_flip_checksum (pre suf : List Nat) (b : Nat) (ch : Chunk) (j : Nat)
    (hpre : 8 ≤ pre.length) (hsuf : 4 ≤ suf.length) (hj : j < 8)
    (hload : chunkLoadBase (pre ++ b :: suf) = .ok ch) :
    chunkLoadBase (pre ++ (b ^^^ 2 ^ j) :: suf) = .error .checksumError := by
  have hL : ∀ x : Nat, (pre ++ x :: suf).length = pre.length + suf.length + 1 := fun x => by
    simp
    omega
  have htake4 : ∀ x : Nat, (pre ++ x :: suf).take 4 = pre.take 4 := fun x => by
    rw [List.take_append_eq_append_take, show (4 - pre.length) = 0 by omega]
    simp
  have hname : ∀ x : Nat, ((pre ++ x :: suf).drop 4).take 4 = (pre.drop 4).take 4 := fun x => by
    rw [List.drop_append_eq_append_drop, show (4 - pre.length) = 0 by omega]
    simp only [List.drop_zero]
    rw [List.take_append_eq_append_take,
      show (4 - (pre.drop 4).length) = 0 by simp [List.length_drop]; omega]
    simp
  have hdat : ∀ x : Nat, ((pre ++ x :: suf).drop 8).take (pre.length + suf.length + 1 - 12)
      = pre.drop 8 ++ x :: suf.take (suf.length - 4) := fun x => by
    rw [List.drop_append_eq_append_drop, show (8 - pre.length) = 0 by omega]
    simp only [List.drop_zero]
    rw [List.take_append_eq_append_take]
    rw [List.take_of_length_le (by simp [List.length_drop]; omega)]
    congr 1
    rw [show pre.length + suf.length + 1 - 12 - (pre.drop 8).length = (suf.length - 4) + 1 by
      simp [List.length_drop]; omega]
    rw [List.take_succ_cons]
  have hcrc4 : ∀ x : Nat, ((pre ++ x :: suf).drop (pre.length + suf.length - 3)).take 4
      = suf.drop (suf.length - 4) := fun x => by
    rw [List.drop_append_eq_append_drop]
    rw [List.drop_eq_nil_of_le (by omega : pre.length ≤ pre.length + suf.length - 3)]
    simp only [List.nil_append]
    rw [show pre.length + suf.length - 3 - pre.length = (suf.length - 4) + 1 by omega]
    rw [List.drop_succ_cons]
    rw [List.take_of_length_le (by simp [List.length_drop]; omega)]
  simp only [chunkLoadBase] at hload
  rw [hL, htake4, hname] at hload
  rw [hdat] at hload
  rw [if_neg (by omega : ¬ (pre.length + suf.length + 1 < 12))] at hload
  by_cases hlenEq : (pre.drop 8 ++ b :: suf.take (suf.length - 4)).length ≠ beU32 (pre.take 4)
  · rw [if_pos hlenEq] at hload; cases hload
  rw [if_neg hlenEq] at hload
  push_neg at hlenEq
  have hidx : 8 + beU32 (pre.take 4) = pre.length + suf.length - 3 := by
    rw [← hlenEq]
    simp [List.length_take]
    omega
  rw [hidx, hcrc4] at hload
  by_cases huni : ¬ (((pre.drop 4).take 4).all fun b => b < 128)
  · rw [if_pos huni] at hload; cases hload
  rw [if_neg huni] at hload
  by_cases hnm : ¬ verifyNameOk ((pre.drop 4).take 4)
  · rw [if_pos hnm] at hload; cases hload
  rw [if_neg hnm] at hload
  rw [if_neg (by simp [List.length_drop]; omega :
    ¬ (suf.drop (suf.length - 4)).length ≠ 4)] at hload
  by_cases hcrcNe : beU32 (suf.drop (suf.length - 4))
      ≠ crc32 ((pre.drop 4).take 4 ++ (pre.drop 8 ++ b :: suf.take (suf.length - 4)))
  · rw [if_pos hcrcNe] at hload; cases hload
  push_neg at hcrcNe
  simp only [chunkLoadBase]
  rw [hL, htake4, hname]
  rw [hdat]
  rw [if_neg (by omega : ¬ (pre.length + suf.length + 1 < 12))]
  rw [if_neg (by
    simp only [List.length_append, List.length_cons] at hlenEq ⊢
    exact not_not_intro hlenEq)]
  rw [hidx, hcrc4]
  rw [if_neg huni, if_neg hnm]
  rw [if_neg (by simp [List.length_drop]; omega :
    ¬ (suf.drop (suf.length - 4)).length ≠ 4)]
  rw [if_pos]
  rw [hcrcNe]
  rw [← List.append_assoc, ← List.append_assoc]
  exact Ne.symm (crc32_flip ((pre.drop 4).take 4 ++ pre.drop 8) (suf.take (suf.length - 4)) b (2 ^ j)
    (Nat.pos_pow_of_pos j (by norm_num)) (by
      have : (2 : Nat) ^ j < 2 ^ 32 := Nat.pow_lt_pow_right (by norm_num) (by omega)
      omega))

set_option maxRecDepth 40000 in
/-- Claim C1 (code bug): lenient mode is supposed to downgrade per-chunk
validation failures to warnings and keep the best-effort chunk, but
`Chunk.load` instantiates `cls()` without forwarding `ignore_errors`, so a
chunk whose stored CRC (here `0`) differs from `crc32(tag‖payload)` makes
even `PNG.load(data, ignore_errors=True)` raise instead of returning a
container. -/
theorem c1_lenient_load_still_raises_on_bad_crc :
    loadPNG (pngHeader ++ [0, 0, 0, 0, 65, 65, 65, 65, 0, 0, 0, 0]) true
      = .error .checksumError := by
  have h1 : crc32 [65, 65, 65, 65] = 2601322737 := by rfl
  simp [loadPNG, loadChunks, chunkLoadDispatch, chunkLoadBase, beU32, beU32Bytes, pngHeader,
    h1, verifyNameOk, isAsciiLetter]

set_option maxRecDepth 40000 in
/-- Claim C2 (code bug): the Sub/Up/Average decode branches do not compute
the claimed formulas.  An Average row `[3, 2]` after the None row `[0, 10]`
yields byte `12` (`f + b`) where the claimed formula
`(f + floor((a+b)/2)) mod 256` gives `7`; a Sub row with a second pixel
raises `TypeError` (the source indexes the integer `line_start`); an Up row
overflowing a byte raises `ValueError` (no `mod 256`). -/
theorem c2_filter_rows_diverge_from_claimed_formulas :
    decode [0, 10, 3, 2] 1 8 = .ok [10, 12] ∧ (2 + (0 + 10) / 2) % 256 = 7 ∧
    decode [1, 5, 5] 2 8 = .error .typeError ∧
    decode [2, 200, 2, 200] 1 8 = .error .valueError := by
  refine ⟨?_, by norm_num, ?_, ?_⟩ <;>
    simp [decode, decodeGo, decodeRow, subRowGo, upRowGo, avgRowGo, scanlineBytes, bytesPerPixel]

/-- Claim C3, counterexample: a stream of eight zero bytes has no valid
signature, yet lenient load returns a container (with no chunks) instead of
failing: the signature check is not fatal in lenient mode. -/
theorem c3_lenient_bad_signature_returns_container :
    loadPNG [0, 0, 0, 0, 0, 0, 0, 0] true = .ok { chunks := [] } := by
  simp [loadPNG, loadChunks, pngHeader]

/-- Claim C3, amended: a signature mismatch is fatal in strict mode only;
strict load fails with the signature error for every stream whose first 8
bytes differ from the signature (in lenient mode the mismatch is just
logged and loading proceeds). -/
theorem c3_signature_mismatch_fatal_in_strict_mode (data : List Nat)
    (h : data.take 8 ≠ pngHeader) :
    loadPNG data false = .error .signatureError := by
  simp only [loadPNG]
  exact if_pos ⟨h, trivial⟩

/-- Claim C3, witness for the amended theorem at the stream `[1, 2, 3]`. -/
theorem c3_signature_mismatch_fatal_in_strict_mode_witness :
    ([1, 2, 3] : List Nat).take 8 ≠ pngHeader ∧
    loadPNG [1, 2, 3] false = .error .signatureError :=
  ⟨by decide, c3_signature_mismatch_fatal_in_strict_mode [1, 2, 3] (by decide)⟩

/-- Claim C4, counterexample: a row whose filter-type byte is `5` does not
raise any error; decode succeeds and the row contributes no output. -/
theorem c4_filter_type_five_no_error :
    decode [5, 7] 1 8 = .ok [] := by
  simp [decode, decodeGo, decodeRow, scanlineBytes, bytesPerPixel]

/-- Claim C4, amended: a filter-type byte outside `{0,1,2,3,4}` matches no
branch of the filter chain, so the row decodes to no bytes and no error is
raised (shown here for a single-row input). -/
theorem c4_unknown_filter_type_row_skipped (ft width bpp : Nat) (rest : List Nat)
    (hft : 4 < ft) (hrest : rest.length ≤ scanlineBytes width bpp) :
    decode (ft :: rest) width bpp = .ok [] := by
  have h0 : ft ≠ 0 := by omega
  have h1 : ft ≠ 1 := by omega
  have h2 : ft ≠ 2 := by omega
  have h3 : ft ≠ 3 := by omega
  have h4 : ft ≠ 4 := by omega
  simp [decode, decodeGo, decodeRow, List.take_of_length_le hrest,
    List.drop_eq_nil_of_le hrest, h0, h1, h2, h3, h4]

/-- Claim C4, witness for the amended theorem at filter type `6`. -/
theorem c4_unknown_filter_type_row_skipped_witness :
    4 < 6 ∧ ([1, 2] : List Nat).length ≤ scanlineBytes 2 8 ∧
    decode [6, 1, 2] 2 8 = .ok [] :=
  ⟨by decide, by decide, c4_unknown_filter_type_row_skipped 6 2 8 [1, 2] (by decide) (by decide)⟩

set_option maxRecDepth 40000 in
/-- Claim C5, witness: a stream holding a single empty `IEND` chunk loads
strictly and dumps back to itself. -/
theorem c5_dump_load_round_trip_witness :
    loadPNG (pngHeader ++ [0, 0, 0, 0, 73, 69, 78, 68, 174, 66, 96, 130]) false
      = .ok { chunks := [⟨0, [73, 69, 78, 68], [], 2923585666, .iend⟩] } ∧
    dumpPNG { chunks := [⟨0, [73, 69, 78, 68], [], 2923585666, .iend⟩] }
      = .ok (pngHeader ++ [0, 0, 0, 0, 73, 69, 78, 68, 174, 66, 96, 130]) := by
  have h2 : crc32 [73, 69, 78, 68] = 2923585666 := by rfl
  have hload : loadPNG (pngHeader ++ [0, 0, 0, 0, 73, 69, 78, 68, 174, 66, 96, 130]) false
      = .ok { chunks := [⟨0, [73, 69, 78, 68], [], 2923585666, .iend⟩] } := by
    simp [loadPNG, loadChunks, chunkLoadDispatch, chunkLoadBase, beU32, beU32Bytes, pngHeader,
      h2, verifyNameOk, isAsciiLetter]
  exact ⟨hload, c5_dump_load_round_trip _ _ (by decide) hload (by decide)⟩

set_option maxRecDepth 40000 in
/-- Claim C6, witness: a chunk with tag `AAAA` and one payload byte `0`
loads successfully; flipping bit `0` of that payload byte makes decode fail
with the CRC-mismatch error. -/
theorem c6_payload_bit_flip_checksum_witness :
    chunkLoadBase ([0, 0, 0, 1, 65, 65, 65, 65] ++ 0 :: [24, 35, 32, 15])
      = .ok ⟨1, [65, 65, 65, 65], [0], 404955151, .generic⟩ ∧
    chunkLoadBase ([0, 0, 0, 1, 65, 65, 65, 65] ++ (0 ^^^ 2 ^ 0) :: [24, 35, 32, 15])
      = .error .checksumError :=
  ⟨by rfl, c6_payload_bit_flip_checksum [0, 0, 0, 1, 65, 65, 65, 65] [24, 35, 32, 15] 0
    ⟨1, [65, 65, 65, 65], [0], 404955151, .generic⟩ 0
    (by decide) (by decide) (by decide) (by rfl)⟩

set_option maxRecDepth 40000 in
/-- Claim C7 (code bug): a chunk whose tag is `A1AA` — a non-letter byte
(`49`, the digit `1`) at position 1 — with consistent length and checksum is
accepted by strict-mode decode instead of failing the name check: the
`return True` inside `verify_name`'s loop makes it check only the first
character. -/
theorem c7_nonletter_tag_byte_accepted :
    isAsciiLetter 49 = false ∧
    chunkLoadBase ([0, 0, 0, 0, 65, 49, 65, 65] ++ beU32Bytes (crc32 [65, 49, 65, 65]))
      = .ok ⟨0, [65, 49, 65, 65], [], 3489423521, .generic⟩ :=
  ⟨rfl, by rfl⟩

/-- Claim C8 (code bug): every tag-flag setter executes
`self.name[i] = ...` on an immutable `str`, so setting any of the four flag
bits raises `TypeError`; no setter can change (or preserve) any letter's
case at all. -/
theorem c8_tag_bit_setters_raise_type_error :
    chunkAncillary ⟨13, [73, 72, 68, 82], [], 0, .generic⟩ (some true) = .error .typeError ∧
    chunkAncillary ⟨13, [73, 72, 68, 82], [], 0, .generic⟩ (some false) = .error .typeError ∧
    chunkPrivate ⟨13, [73, 72, 68, 82], [], 0, .generic⟩ (some true) = .error .typeError ∧
    chunkReserved ⟨13, [73, 72, 68, 82], [], 0, .generic⟩ (some true) = .error .typeError ∧
    chunkSafeToCopy ⟨13, [73, 72, 68, 82], [], 0, .generic⟩ (some true) = .error .typeError :=
  ⟨rfl, rfl, rfl, rfl, rfl⟩

/-- Claim C9, counterexample: the two-row scenario does not decode to
`[10, 15]`. -/
theorem c9_sub_scenario_not_fifteen :
    decode [0, 10, 1, 5] 1 8 ≠ .ok [10, 15] := by
  simp [decode, decodeGo, decodeRow, subRowGo, scanlineBytes, bytesPerPixel]

/-- Claim C9, amended: with width 1 and 8 bits per pixel, the rows `[0, 10]`
(None) and `[1, 5]` (Sub) decode to `[10, 5]`: the Sub row's only byte has
no left neighbour, so it is emitted as-is. -/
theorem c9_sub_scenario_decodes_to_ten_five :
    decode [0, 10, 1, 5] 1 8 = .ok [10, 5] := by
  simp [decode, decodeGo, decodeRow, subRowGo, scanlineBytes, bytesPerPixel]

/-- Claim C10: scanline decode does not require the input length to be a
multiple of `scanline_bytes + 1`.  For rows of filter type 0 whose final
row is truncated (fewer than `scanline_bytes` bytes after its filter byte),
decode succeeds, copies every row verbatim, and the output's final row is
correspondingly shorter. -/
theorem c10_truncated_final_row_ok (width bpp : Nat) (rows : List (List Nat)) (lastRow : List Nat)
    (hrows : ∀ r ∈ rows, r.length = scanlineBytes width bpp)
    (hlast : lastRow.length < scanlineBytes width bpp) :
    decode ((rows.map (fun r => 0 :: r)).flatten ++ 0 :: lastRow) width bpp
      = .ok (rows.flatten ++ lastRow) :=
  decodeGo_type0 width bpp rows lastRow _ hrows hlast

/-- Claim C10, witness: one full row `[7, 9]` plus a truncated final row
`[5]` at `scanline_bytes = 2`. -/
theorem c10_truncated_final_row_ok_witness :
    (∀ r ∈ [[7, 9]], List.length r = scanlineBytes 2 8) ∧
    ([5] : List Nat).length < scanlineBytes 2 8 ∧
    decode [0, 7, 9, 0, 5] 2 8 = .ok [7, 9, 5] :=
  ⟨by decide, by decide, c10_truncated_final_row_ok 2 8 [[7, 9]] [5] (by decide) (by decide)⟩

end Png
